import Mathlib

/-
Verification of ts-acl-hosts-gen (main.go).

The tool fetches the device list of a tailnet, derives a mapping from short
host names to primary addresses, and patches the top-level "hosts" key of a
relaxed-JSON (HuJSON) policy file with that mapping.

Shallow embedding notes:
* A HuJSON value (the hujson.Value parse tree) is modelled by the mutual
  inductive JValue / JMembers / JItems below; comments and whitespace, which
  hujson attaches to nodes and which value.Format() canonicalizes, are
  abstracted away.  The policy file's top-level value is an object, modelled
  by its member list (JMembers).
* The policy file on disk is modelled by FileState: absent, present with
  content that does not parse as relaxed JSON (invalid raw), or present with
  content raw that parses to the member list doc (valid raw doc).  Reading a
  valid file yields its doc; this encodes hujson.Parse's behaviour on the
  file's bytes.
* Go's map[string]string is modelled as an association list with
  first-occurrence update (setKey): assignment to an existing key replaces
  its value, assignment to a fresh key appends it.
* Go's strings.Split(name, ".") is modelled by splitDots on the character
  list (the separator is the single character '.').
-/

mutual

inductive JValue : Type where
  | str (s : String) : JValue
  | num (n : Int) : JValue
  | bool (b : Bool) : JValue
  | null : JValue
  | obj (members : JMembers) : JValue
  | arr (items : JItems) : JValue

inductive JMembers : Type where
  | nil : JMembers
  | cons (key : String) (val : JValue) (rest : JMembers) : JMembers

inductive JItems : Type where
  | nil : JItems
  | cons (v : JValue) (rest : JItems) : JItems

end

/-- Top-level member lookup, as hujson's value.Find(name) on the root
object: returns the first member with the given key, if any. -/
def JMembers.lookup : JMembers → String → Option JValue
  | .nil, _ => none
  | .cons k v rest, key => if k = key then some v else rest.lookup key

/-- Replace the value of the first member with the given key, as a JSON
Patch "replace" at /key applied by hujson (targets the found member). -/
def JMembers.replaceFirst : JMembers → String → JValue → JMembers
  | .nil, _, _ => .nil
  | .cons k w rest, key, v =>
    if k = key then .cons k v rest else .cons k w (rest.replaceFirst key v)

/-- Append member lists; a JSON Patch "add" of a fresh object member
appends it to the object. -/
def JMembers.append : JMembers → JMembers → JMembers
  | .nil, ys => ys
  | .cons k v rest, ys => .cons k v (rest.append ys)

/-- Structural induction on JMembers alone (the mutual recursor also asks
for JValue and JItems motives, which no proof here needs). -/
theorem JMembers.inductionOn (motive : JMembers → Prop) (hnil : motive .nil)
    (hcons : ∀ k v rest, motive rest → motive (.cons k v rest)) :
    ∀ ms, motive ms
  | .nil => hnil
  | .cons k v rest => hcons k v rest (JMembers.inductionOn motive hnil hcons rest)

/-- JSON string quoting for serialization (escapes the quote, the
backslash and the newline; other characters pass through). -/
def quoteChar (c : Char) : String :=
  if c = '"' then "\\\""
  else if c = '\\' then "\\\\"
  else if c = '\n' then "\\n"
  else String.singleton c

def quoteString (s : String) : String :=
  "\"" ++ String.join (s.toList.map quoteChar) ++ "\""

mutual

/-- Serialization of a HuJSON value to text: the model of
value.Format() followed by value.String() in patchPolicy.  The exact
whitespace convention is irrelevant to the verified properties; what
matters is that it is a deterministic function of the parse tree. -/
def serializeJ : JValue → String
  | .str s => quoteString s
  | .num n => toString n
  | .bool b => if b then "true" else "false"
  | .null => "null"
  | .obj ms => "\x7b" ++ serializeMembers ms ++ "\x7d"
  | .arr items => "[" ++ serializeItems items ++ "]"

def serializeMembers : JMembers → String
  | .nil => ""
  | .cons k v .nil => quoteString k ++ ": " ++ serializeJ v
  | .cons k v (.cons k2 v2 rest) =>
    quoteString k ++ ": " ++ serializeJ v ++ ", " ++
      serializeMembers (.cons k2 v2 rest)

def serializeItems : JItems → String
  | .nil => ""
  | .cons v .nil => serializeJ v
  | .cons v (.cons v2 rest) => serializeJ v ++ ", " ++ serializeItems (.cons v2 rest)

end

/-- The hosts map marshalled as a JSON object (patch operation value):
each binding k -> a becomes the object member "k": "a". -/
def hostsToMembers : List (String × String) → JMembers
  | [] => .nil
  | (k, v) :: rest => .cons k (.str v) (hostsToMembers rest)

def encodeHosts (hosts : List (String × String)) : JValue :=
  .obj (hostsToMembers hosts)

/-- The in-memory patch step of patchPolicy: value.Find("hosts") decides
between a JSON Patch "replace" (key present: the member's value is
replaced) and "add" (key absent: the member is appended) at path /hosts,
with the marshalled hosts map as the value. -/
def patchDoc (doc : JMembers) (hosts : List (String × String)) : JMembers :=
  if (doc.lookup "hosts").isSome then
    doc.replaceFirst "hosts" (encodeHosts hosts)
  else
    doc.append (.cons "hosts" (encodeHosts hosts) .nil)

/-- The policy file on disk: absent, present with non-parsing content,
or present with content that parses to the given top-level object. -/
inductive FileState : Type where
  | absent : FileState
  | invalid (raw : String) : FileState
  | valid (raw : String) (doc : JMembers) : FileState

/-- What openPolicy finds after its create-if-missing step: a file that
either fails or succeeds to parse. -/
inductive FileContent : Type where
  | invalid (raw : String) : FileContent
  | valid (raw : String) (doc : JMembers) : FileContent

/-- The initial text written by openPolicy when the policy file is
absent: an open brace, a newline, a close brace, which parses as the
empty object. -/
def initialPolicyText : String := "\x7b\n\x7d"

/-- openPolicy: stat the path; if the file is absent, create it with
initialPolicyText (which parses to the empty member list).  Returns the
text written during creation (if any) and the resulting file content. -/
def openPolicy : FileState → Option String × FileContent
  | .absent => (some initialPolicyText, .valid initialPolicyText .nil)
  | .invalid raw => (none, .invalid raw)
  | .valid raw doc => (none, .valid raw doc)

inductive PatchError : Type where
  | parseFailure (raw : String) : PatchError

/-- Outcome of one patchPolicy run: the returned error (none on
success), the text written by openPolicy's create-if-missing step (none
when the file already existed), and the file's state afterwards. -/
structure RunOutcome : Type where
  result : Option PatchError
  created : Option String
  fileAfter : FileState

/-- patchPolicy: open (creating if absent), read and parse the file; on
parse failure return the error with the on-disk content untouched; on
success patch /hosts in memory, format, and write the whole file back. -/
def patchPolicy (fs : FileState) (hosts : List (String × String)) : RunOutcome :=
  match openPolicy fs with
  | (created, .invalid raw) => ⟨some (.parseFailure raw), created, .invalid raw⟩
  | (created, .valid _raw doc) =>
    let newDoc := patchDoc doc hosts
    ⟨none, created, .valid (serializeJ (.obj newDoc)) newDoc⟩

/-- A Tailscale device as listed by the API: its fully qualified name
and its ordered address list. -/
structure Device : Type where
  name : String
  addresses : List String
  deriving DecidableEq

/-- ErrInvalidDeviceName, wrapped with the offending device name. -/
inductive DomainError : Type where
  | invalidDeviceName (name : String) : DomainError

/-- strings.Split(s, ".") on the character list: splits at every dot,
keeping empty segments; the empty string yields one empty segment. -/
def splitDots : List Char → List (List Char)
  | [] => [[]]
  | c :: rest =>
    match splitDots rest with
    | [] => [[c]]
    | s :: ss => if c = '.' then [] :: s :: ss else (c :: s) :: ss

/-- The dot-separated components of a device name. -/
def deviceNameParts (name : String) : List String :=
  (splitDots name.toList).map (fun cs => String.mk cs)

/-- deviceShortDomain: require at least three dot-separated components
with the last two literally "ts" and "net"; return the first component,
else ErrInvalidDeviceName naming the device. -/
def deviceShortDomain (device : Device) : Except DomainError String :=
  let parts := deviceNameParts device.name
  if parts.length < 3 then
    .error (.invalidDeviceName device.name)
  else if parts.getD (parts.length - 2) "" = "ts" ∧
      parts.getD (parts.length - 1) "" = "net" then
    .ok (parts.headD "")
  else
    .error (.invalidDeviceName device.name)

def shortOf (device : Device) : Option String :=
  match deviceShortDomain device with
  | .ok s => some s
  | .error _ => none

def okName (device : Device) : Bool :=
  (shortOf device).isSome

/-- The device's first listed address (Addresses[0]); the default is
never used under the nonempty-addresses precondition. -/
def firstAddr (device : Device) : String :=
  device.addresses.headD ""

/-- Go map assignment m[k] = v on the association-list model: replace
the value at the first occurrence of k, or append a new binding. -/
def setKey : List (String × String) → String → String → List (String × String)
  | [], k, v => [(k, v)]
  | (k2, v2) :: rest, k, v =>
    if k2 = k then (k, v) :: rest else (k2, v2) :: setKey rest k v

/-- Go map read m[k] on the association-list model: the value at the
first occurrence of k, if any. -/
def getKey : List (String × String) → String → Option String
  | [], _ => none
  | (k2, v2) :: rest, k => if k2 = k then some v2 else getKey rest k

/-- Result of fetchHosts: the hosts map, an invalid-device-name error,
or the runtime panic from indexing an empty address list. -/
inductive FetchResult : Type where
  | ok (hosts : List (String × String)) : FetchResult
  | err (e : DomainError) : FetchResult
  | outOfRange : FetchResult

/-- The device loop of fetchHosts: for each device derive the short
name (failing fast on the first invalid name), index Addresses[0]
unguarded, and assign into the map. -/
def fetchGo (acc : List (String × String)) : List Device → FetchResult
  | [] => .ok acc
  | device :: rest =>
    match deviceShortDomain device with
    | .error e => .err e
    | .ok short =>
      match device.addresses with
      | [] => .outOfRange
      | a :: _ => fetchGo (setKey acc short a) rest

def fetchHosts (devices : List Device) : FetchResult :=
  fetchGo [] devices

/-- The last device in the list whose short name is k, if any (the
binding that survives map assignment in list order). -/
def lastMatch : List Device → String → Option Device
  | [], _ => none
  | device :: rest, k =>
    match lastMatch rest k with
    | some d2 => some d2
    | none => if shortOf device = some k then some device else none

/-- The resolved run configuration (flags after environment fallback
plus the positional policy-file argument). -/
structure Config : Type where
  apiKey : String
  clientID : String
  clientSecret : String
  policyFile : String

/-- Raw command-line and environment inputs to a run. -/
structure CLIInput : Type where
  flagApiKey : String
  envApiKey : String
  flagClientID : String
  envClientID : String
  flagClientSecret : String
  envClientSecret : String
  args : List String

inductive MainError : Type where
  | missingPolicy : MainError
  | noCredentials : MainError
  | fetchFailed (e : DomainError) : MainError
  | patchFailed (e : PatchError) : MainError

/-- parseFlags: each credential flag falls back to its environment
variable when empty; exactly one positional argument (the policy file)
is required. -/
def parseFlags (inp : CLIInput) : Except MainError Config :=
  let apiKey := if inp.flagApiKey = "" then inp.envApiKey else inp.flagApiKey
  let clientID := if inp.flagClientID = "" then inp.envClientID else inp.flagClientID
  let clientSecret :=
    if inp.flagClientSecret = "" then inp.envClientSecret else inp.flagClientSecret
  if inp.args.length ≠ 1 then .error .missingPolicy
  else .ok ⟨apiKey, clientID, clientSecret, inp.args.headD ""⟩

/-- The constructed API client: OAuth mode or API-key mode. -/
inductive TSClient : Type where
  | oauth (tailnet clientID clientSecret : String) (scopes : List String) : TSClient
  | api (tailnet key : String) : TSClient

/-- createTailscaleClient: OAuth mode when both client id and secret are
nonempty, else API-key mode when the key is nonempty, else
ErrNoCredentials. -/
def createTailscaleClient (cfg : Config) : Except MainError TSClient :=
  if cfg.clientID ≠ "" ∧ cfg.clientSecret ≠ "" then
    .ok (.oauth "-" cfg.clientID cfg.clientSecret ["devices:core:read"])
  else if cfg.apiKey ≠ "" then
    .ok (.api "-" cfg.apiKey)
  else
    .error .noCredentials

/-- Externally visible I/O effects of a run (stderr progress messages
are not I/O in this sense). -/
inductive Effect : Type where
  | network : Effect
  | filesystem : Effect

inductive MainResult : Type where
  | ok : MainResult
  | error (e : MainError) : MainResult
  | crashed : MainResult

/-- mainE: parse flags, build the client, fetch hosts over the network,
then patch the policy file.  devices stands for what the device-listing
API would return and fs for the policy file's state; the effect trace
records which I/O was performed. -/
def mainE (inp : CLIInput) (devices : List Device) (fs : FileState) :
    MainResult × List Effect × FileState :=
  match parseFlags inp with
  | .error e => (.error e, [], fs)
  | .ok cfg =>
    match createTailscaleClient cfg with
    | .error e => (.error e, [], fs)
    | .ok _ =>
      match fetchHosts devices with
      | .err e => (.error (.fetchFailed e), [.network], fs)
      | .outOfRange => (.crashed, [.network], fs)
      | .ok hosts =>
        let out := patchPolicy fs hosts
        match out.result with
        | some pe => (.error (.patchFailed pe), [.network, .filesystem], out.fileAfter)
        | none => (.ok, [.network, .filesystem], out.fileAfter)

theorem lookup_replaceFirst_self (ms : JMembers) (key : String) (v : JValue)
    (h : (ms.lookup key).isSome) :
    (ms.replaceFirst key v).lookup key = some v := by
  induction ms using JMembers.inductionOn with
  | hnil => simp [JMembers.lookup] at h
  | hcons k w rest ih =>
    by_cases hk : k = key
    · subst hk
      simp [JMembers.replaceFirst, JMembers.lookup]
    · simp only [JMembers.lookup, if_neg hk] at h
      simp only [JMembers.replaceFirst, if_neg hk, JMembers.lookup]
      exact ih h

theorem lookup_replaceFirst_ne (ms : JMembers) (key k : String) (v : JValue)
    (h : k ≠ key) :
    (ms.replaceFirst key v).lookup k = ms.lookup k := by
  induction ms using JMembers.inductionOn with
  | hnil => rfl
  | hcons k2 w rest ih =>
    by_cases hk : k2 = key
    · subst hk
      simp [JMembers.replaceFirst, JMembers.lookup, if_neg (Ne.symm h)]
    · simp [JMembers.replaceFirst, if_neg hk, JMembers.lookup, ih]

theorem lookup_append_single_ne (xs : JMembers) (key k : String) (v : JValue)
    (h : k ≠ key) :
    (xs.append (.cons key v .nil)).lookup k = xs.lookup k := by
  induction xs using JMembers.inductionOn with
  | hnil => simp [JMembers.append, JMembers.lookup, if_neg (Ne.symm h)]
  | hcons k2 w rest ih =>
    by_cases hk : k2 = k
    · simp [JMembers.append, JMembers.lookup, hk]
    · simp [JMembers.append, JMembers.lookup, hk, ih]

theorem lookup_append_single_self (xs : JMembers) (key : String) (v : JValue)
    (h : xs.lookup key = none) :
    (xs.append (.cons key v .nil)).lookup key = some v := by
  induction xs using JMembers.inductionOn with
  | hnil => simp [JMembers.append, JMembers.lookup]
  | hcons k2 w rest ih =>
    by_cases hk : k2 = key
    · simp [JMembers.lookup, hk] at h
    · simp only [JMembers.lookup, if_neg hk] at h
      simp only [JMembers.append, JMembers.lookup, if_neg hk]
      exact ih h

theorem patchDoc_lookup_hosts (doc : JMembers) (hosts : List (String × String)) :
    (patchDoc doc hosts).lookup "hosts" = some (encodeHosts hosts) := by
  unfold patchDoc
  by_cases h : (doc.lookup "hosts").isSome
  · rw [if_pos h]
    exact lookup_replaceFirst_self doc "hosts" _ h
  · rw [if_neg h]
    exact lookup_append_single_self doc "hosts" _
      (Option.not_isSome_iff_eq_none.mp h)

theorem patchDoc_lookup_ne (doc : JMembers) (hosts : List (String × String))
    (k : String) (h : k ≠ "hosts") :
    (patchDoc doc hosts).lookup k = doc.lookup k := by
  unfold patchDoc
  split
  · exact lookup_replaceFirst_ne _ _ _ _ h
  · exact lookup_append_single_ne _ _ _ _ h

theorem replaceFirst_lookup_eq (ms : JMembers) (key : String) (v : JValue)
    (h : ms.lookup key = some v) : ms.replaceFirst key v = ms := by
  induction ms using JMembers.inductionOn with
  | hnil => rfl
  | hcons k2 w rest ih =>
    by_cases hk : k2 = key
    · subst hk
      have hw : w = v := by simpa [JMembers.lookup] using h
      subst hw
      simp [JMembers.replaceFirst]
    · simp only [JMembers.lookup, if_neg hk] at h
      simp [JMembers.replaceFirst, if_neg hk, ih h]

theorem patchDoc_of_lookup_eq (doc : JMembers) (hosts : List (String × String))
    (h : doc.lookup "hosts" = some (encodeHosts hosts)) :
    patchDoc doc hosts = doc := by
  unfold patchDoc
  rw [if_pos (by rw [h]; rfl)]
  exact replaceFirst_lookup_eq _ _ _ h

theorem patchDoc_idem (doc : JMembers) (hosts : List (String × String)) :
    patchDoc (patchDoc doc hosts) hosts = patchDoc doc hosts :=
  patchDoc_of_lookup_eq _ _ (patchDoc_lookup_hosts doc hosts)

/-- C1: for every host mapping and every policy file whose content parses as
relaxed JSON, a successful patchPolicy run leaves the file's top-level
"hosts" key equal to the marshalled mapping exactly (same keys, same
values), wholly replacing any prior value at that key with no merge. -/
theorem patchPolicy_hosts_exact (fs : FileState) (hosts : List (String × String))
    (t : String) (d : JMembers)
    (hok : (patchPolicy fs hosts).result = none)
    (hf : (patchPolicy fs hosts).fileAfter = .valid t d) :
    d.lookup "hosts" = some (encodeHosts hosts) := by
  cases fs with
  | absent =>
    simp only [patchPolicy, openPolicy] at hf
    cases hf
    exact patchDoc_lookup_hosts _ _
  | invalid raw => simp [patchPolicy, openPolicy] at hok
  | valid raw doc =>
    simp only [patchPolicy, openPolicy] at hf
    cases hf
    exact patchDoc_lookup_hosts _ _

/-- Witness for C1: patching an absent file with a one-entry mapping yields
a document whose "hosts" member is exactly that mapping. -/
theorem patchPolicy_hosts_exact_witness :
    JMembers.lookup (.cons "hosts" (encodeHosts [("nas", "100.64.0.1")]) .nil) "hosts"
      = some (encodeHosts [("nas", "100.64.0.1")]) :=
  patchPolicy_hosts_exact .absent [("nas", "100.64.0.1")]
    (serializeJ (.obj (.cons "hosts" (encodeHosts [("nas", "100.64.0.1")]) .nil)))
    (.cons "hosts" (encodeHosts [("nas", "100.64.0.1")]) .nil) rfl rfl

/-- C2: patchPolicy preserves every top-level key other than "hosts": after
a successful run on a document that parses, every other key is still bound
to its previous value. -/
theorem patchPolicy_preserves_others (raw : String) (doc : JMembers)
    (hosts : List (String × String)) (k : String) (t : String) (d : JMembers)
    (hk : k ≠ "hosts")
    (hf : (patchPolicy (.valid raw doc) hosts).fileAfter = .valid t d) :
    d.lookup k = doc.lookup k := by
  simp only [patchPolicy, openPolicy] at hf
  cases hf
  exact patchDoc_lookup_ne _ _ _ hk

/-- Witness for C2: the "acls" key of a document keeps its value across a
patch of the "hosts" key. -/
theorem patchPolicy_preserves_others_witness :
    JMembers.lookup
        (patchDoc (.cons "acls" (.arr .nil) .nil) [("nas", "100.64.0.1")]) "acls"
      = JMembers.lookup (.cons "acls" (.arr .nil) .nil) "acls" :=
  patchPolicy_preserves_others "\x7b\"acls\": []\x7d" (.cons "acls" (.arr .nil) .nil)
    [("nas", "100.64.0.1")] "acls"
    (serializeJ (.obj (patchDoc (.cons "acls" (.arr .nil) .nil) [("nas", "100.64.0.1")])))
    (patchDoc (.cons "acls" (.arr .nil) .nil) [("nas", "100.64.0.1")])
    (by decide) rfl

/-- C5: on an existing file whose content does not parse as relaxed JSON,
patchPolicy returns a parse error, writes nothing, and leaves the on-disk
content exactly as it was. -/
theorem patchPolicy_invalid_unchanged (raw : String) (hosts : List (String × String)) :
    patchPolicy (.invalid raw) hosts = ⟨some (.parseFailure raw), none, .invalid raw⟩ :=
  rfl

/-- C6: on a non-existent path, patchPolicy first creates the file with
exactly the three characters open-brace, newline, close-brace, and the
successful run ends with a document holding exactly one top-level member,
"hosts", bound to the given mapping. -/
theorem patchPolicy_missing_file (hosts : List (String × String)) :
    patchPolicy .absent hosts =
      ⟨none, some "\x7b\n\x7d",
        .valid (serializeJ (.obj (.cons "hosts" (encodeHosts hosts) .nil)))
          (.cons "hosts" (encodeHosts hosts) .nil)⟩ :=
  rfl

/-- C7: running patchPolicy twice with the same mapping is idempotent: the
second run succeeds, creates nothing, and leaves file text and document
identical to the first run's output (hence a byte-identical "hosts"
value). -/
theorem patchPolicy_idempotent (raw t1 : String) (doc d1 : JMembers)
    (hosts : List (String × String))
    (hf : (patchPolicy (.valid raw doc) hosts).fileAfter = .valid t1 d1) :
    patchPolicy (.valid t1 d1) hosts = ⟨none, none, .valid t1 d1⟩ := by
  simp only [patchPolicy, openPolicy] at hf
  cases hf
  simp only [patchPolicy, openPolicy]
  rw [patchDoc_idem]

/-- Witness for C7: a second patch of the file produced by patching the
empty document reproduces that file exactly. -/
theorem patchPolicy_idempotent_witness :
    patchPolicy
        (.valid (serializeJ (.obj (patchDoc .nil [("nas", "100.64.0.1")])))
          (patchDoc .nil [("nas", "100.64.0.1")]))
        [("nas", "100.64.0.1")] =
      ⟨none, none,
        .valid (serializeJ (.obj (patchDoc .nil [("nas", "100.64.0.1")])))
          (patchDoc .nil [("nas", "100.64.0.1")])⟩ :=
  patchPolicy_idempotent "\x7b\n\x7d"
    (serializeJ (.obj (patchDoc .nil [("nas", "100.64.0.1")]))) .nil
    (patchDoc .nil [("nas", "100.64.0.1")]) [("nas", "100.64.0.1")] rfl

theorem getKey_setKey_self (m : List (String × String)) (k v : String) :
    getKey (setKey m k v) k = some v := by
  induction m with
  | nil => simp [setKey, getKey]
  | cons p rest ih =>
    obtain ⟨k2, v2⟩ := p
    by_cases hk : k2 = k
    · subst hk
      simp [setKey, getKey]
    · simp [setKey, hk, getKey, ih]

theorem getKey_setKey_ne (m : List (String × String)) (k v k2 : String)
    (h : k2 ≠ k) : getKey (setKey m k v) k2 = getKey m k2 := by
  induction m with
  | nil => simp [setKey, getKey, Ne.symm h]
  | cons p rest ih =>
    obtain ⟨k3, v3⟩ := p
    by_cases hk : k3 = k
    · subst hk
      simp [setKey, getKey, Ne.symm h]
    · simp [setKey, hk, getKey, ih]

theorem deviceShortDomain_error_shape (device : Device) (e : DomainError)
    (h : deviceShortDomain device = .error e) :
    e = .invalidDeviceName device.name := by
  simp only [deviceShortDomain] at h
  split at h
  · cases h
    rfl
  · split at h
    · cases h
    · cases h
      rfl

theorem deviceShortDomain_of_not_okName (device : Device)
    (h : okName device = false) :
    deviceShortDomain device = .error (.invalidDeviceName device.name) := by
  unfold okName shortOf at h
  cases hd : deviceShortDomain device with
  | ok s =>
    rw [hd] at h
    simp at h
  | error e =>
    rw [deviceShortDomain_error_shape device e hd]

theorem fetchGo_ok (devices : List Device) (acc : List (String × String))
    (hnames : ∀ d ∈ devices, okName d = true)
    (haddrs : ∀ d ∈ devices, d.addresses ≠ []) :
    ∃ m, fetchGo acc devices = .ok m ∧
      ∀ k, getKey m k =
        match lastMatch devices k with
        | some d => some (firstAddr d)
        | none => getKey acc k := by
  induction devices generalizing acc with
  | nil => exact ⟨acc, rfl, fun k => rfl⟩
  | cons d rest ih =>
    obtain ⟨s, hs⟩ : ∃ s, deviceShortDomain d = .ok s := by
      have hd := hnames d (by simp)
      unfold okName shortOf at hd
      cases h : deviceShortDomain d with
      | ok s => exact ⟨s, rfl⟩
      | error e =>
        rw [h] at hd
        simp at hd
    obtain ⟨a, as, ha⟩ : ∃ a as, d.addresses = a :: as := by
      cases h : d.addresses with
      | nil => exact absurd h (haddrs d (by simp))
      | cons a as => exact ⟨a, as, rfl⟩
    obtain ⟨m, hm, hlook⟩ := ih (setKey acc s a)
      (fun d2 h2 => hnames d2 (by simp [h2]))
      (fun d2 h2 => haddrs d2 (by simp [h2]))
    refine ⟨m, ?_, ?_⟩
    · simp only [fetchGo, hs, ha]
      exact hm
    · intro k
      rw [hlook k]
      cases hl : lastMatch rest k with
      | some d2 => simp [lastMatch, hl]
      | none =>
        simp only [lastMatch, hl]
        by_cases hk : shortOf d = some k
        · have hsk : s = k := by
            unfold shortOf at hk
            rw [hs] at hk
            exact Option.some.inj hk
          subst hsk
          rw [if_pos hk, getKey_setKey_self]
          simp [firstAddr, ha]
        · rw [if_neg hk]
          apply getKey_setKey_ne
          intro hkk
          apply hk
          unfold shortOf
          rw [hs, hkk]

theorem fetchGo_err (pre : List Device) (bad : Device) (rest : List Device)
    (acc : List (String × String))
    (hpre : ∀ d ∈ pre, okName d = true ∧ d.addresses ≠ [])
    (hbad : okName bad = false) :
    fetchGo acc (pre ++ bad :: rest) = .err (.invalidDeviceName bad.name) := by
  induction pre generalizing acc with
  | nil =>
    simp [fetchGo, deviceShortDomain_of_not_okName bad hbad]
  | cons d pre2 ih =>
    obtain ⟨s, hs⟩ : ∃ s, deviceShortDomain d = .ok s := by
      have hd := (hpre d (by simp)).1
      unfold okName shortOf at hd
      cases h : deviceShortDomain d with
      | ok s => exact ⟨s, rfl⟩
      | error e =>
        rw [h] at hd
        simp at hd
    obtain ⟨a, as, ha⟩ : ∃ a as, d.addresses = a :: as := by
      cases h : d.addresses with
      | nil => exact absurd h (hpre d (by simp)).2
      | cons a as => exact ⟨a, as, rfl⟩
    simp only [List.cons_append, fetchGo, hs, ha]
    exact ih (setKey acc s a) (fun d2 h2 => hpre d2 (by simp [h2]))

theorem exists_first_offender (devices : List Device)
    (h : ∃ d ∈ devices, okName d = false) :
    ∃ pre bad rest, devices = pre ++ bad :: rest ∧
      (∀ d ∈ pre, okName d = true) ∧ okName bad = false := by
  induction devices with
  | nil => simp at h
  | cons d rest ih =>
    by_cases hd : okName d = true
    · obtain ⟨d2, hd2, hbad⟩ := h
      rcases List.mem_cons.mp hd2 with heq | hmem
      · subst heq
        rw [hd] at hbad
        cases hbad
      · obtain ⟨pre, bad, rest2, heq, hpre, hbad2⟩ := ih ⟨d2, hmem, hbad⟩
        refine ⟨d :: pre, bad, rest2, by simp [heq], ?_, hbad2⟩
        intro x hx
        rcases List.mem_cons.mp hx with hxeq | hxm
        · subst hxeq
          exact hd
        · exact hpre x hxm
    · exact ⟨[], d, rest, rfl, by simp, by simpa using hd⟩

theorem lastMatch_eq_none (devices : List Device) (s : String)
    (h : ∀ d ∈ devices, shortOf d ≠ some s) : lastMatch devices s = none := by
  induction devices with
  | nil => rfl
  | cons d rest ih =>
    simp only [lastMatch, ih (fun d2 h2 => h d2 (List.mem_cons_of_mem d h2))]
    rw [if_neg (h d (List.mem_cons_self d rest))]

theorem lastMatch_append_last (pre : List Device) (d2 : Device)
    (post : List Device) (s : String) (hs : shortOf d2 = some s)
    (hpost : ∀ d ∈ post, shortOf d ≠ some s) :
    lastMatch (pre ++ d2 :: post) s = some d2 := by
  induction pre with
  | nil =>
    simp only [List.nil_append, lastMatch, lastMatch_eq_none post s hpost]
    rw [if_pos hs]
  | cons d pre2 ih =>
    simp only [List.cons_append, lastMatch, List.append_eq, ih]

theorem lastMatch_isSome_of_mem (devices : List Device) (d : Device) (s : String)
    (hmem : d ∈ devices) (hs : shortOf d = some s) :
    (lastMatch devices s).isSome = true := by
  induction devices with
  | nil => simp at hmem
  | cons d2 rest ih =>
    rcases List.mem_cons.mp hmem with heq | hmem2
    · subst heq
      cases hl : lastMatch rest s with
      | some d3 => simp [lastMatch, hl]
      | none => simp [lastMatch, hl, hs]
    · have hsome := ih hmem2
      cases hl : lastMatch rest s with
      | some d3 => simp [lastMatch, hl]
      | none =>
        rw [hl] at hsome
        simp at hsome

theorem fetchGo_no_outOfRange (devices : List Device) (acc : List (String × String))
    (haddr : ∀ d ∈ devices, d.addresses ≠ []) :
    fetchGo acc devices ≠ .outOfRange := by
  induction devices generalizing acc with
  | nil => simp [fetchGo]
  | cons d rest ih =>
    cases hd : deviceShortDomain d with
    | error e => simp [fetchGo, hd]
    | ok s =>
      cases ha : d.addresses with
      | nil => exact absurd ha (haddr d (by simp))
      | cons a as =>
        simp only [fetchGo, hd, ha]
        exact ih _ (fun d2 h2 => haddr d2 (by simp [h2]))

/-- C3: deviceShortDomain succeeds exactly when the device name has at
least three dot-separated components whose last two are literally "ts"
and "net"; on success it returns the first component, and otherwise it
returns the invalid-device-name error naming the device. -/
theorem deviceShortDomain_shape (name : String) (addrs : List String) :
    ((3 ≤ (deviceNameParts name).length ∧
        (deviceNameParts name).getD ((deviceNameParts name).length - 2) "" = "ts" ∧
        (deviceNameParts name).getD ((deviceNameParts name).length - 1) "" = "net") →
      deviceShortDomain ⟨name, addrs⟩ = .ok ((deviceNameParts name).headD "")) ∧
    (¬(3 ≤ (deviceNameParts name).length ∧
        (deviceNameParts name).getD ((deviceNameParts name).length - 2) "" = "ts" ∧
        (deviceNameParts name).getD ((deviceNameParts name).length - 1) "" = "net") →
      deviceShortDomain ⟨name, addrs⟩ = .error (.invalidDeviceName name)) := by
  constructor
  · rintro ⟨h1, h2, h3⟩
    simp only [deviceShortDomain]
    rw [if_neg (by omega), if_pos ⟨h2, h3⟩]
  · intro h
    simp only [deviceShortDomain]
    by_cases h1 : (deviceNameParts name).length < 3
    · rw [if_pos h1]
    · rw [if_neg h1, if_neg (fun h23 => h ⟨by omega, h23⟩)]

/-- Witness for C3: a well-formed four-component name yields its first
label; a two-component name is rejected with the invalid-name error. -/
theorem deviceShortDomain_shape_witness :
    deviceShortDomain ⟨"host.tailnet.ts.net", ["100.64.0.3"]⟩ = .ok "host" ∧
    deviceShortDomain ⟨"host.ts", []⟩ = .error (.invalidDeviceName "host.ts") :=
  ⟨(deviceShortDomain_shape "host.tailnet.ts.net" ["100.64.0.3"]).1 (by decide),
    (deviceShortDomain_shape "host.ts" []).2 (by decide)⟩

/-- C4: fetching is all-or-nothing: if any device name fails the shape
check, fetchHosts returns the invalid-device-name error naming the first
offender and no mapping; if every name passes, it returns the mapping in
which each short name is bound to the first address of the last device
bearing it (every device's short name is present). -/
theorem fetchHosts_all_or_nothing (devices : List Device)
    (haddr : ∀ d ∈ devices, d.addresses ≠ []) :
    ((∃ d ∈ devices, okName d = false) →
      ∃ bad ∈ devices, okName bad = false ∧
        fetchHosts devices = .err (.invalidDeviceName bad.name)) ∧
    ((∀ d ∈ devices, okName d = true) →
      ∃ m, fetchHosts devices = .ok m ∧
        (∀ k, getKey m k =
          match lastMatch devices k with
          | some d => some (firstAddr d)
          | none => none) ∧
        (∀ d ∈ devices, ∀ s, shortOf d = some s → (getKey m s).isSome = true)) := by
  constructor
  · intro hex
    obtain ⟨pre, bad, rest, heq, hpre, hbad⟩ := exists_first_offender devices hex
    refine ⟨bad, by simp [heq], hbad, ?_⟩
    rw [heq]
    exact fetchGo_err pre bad rest []
      (fun d hd => ⟨hpre d hd, haddr d (by simp [heq, hd])⟩) hbad
  · intro hnames
    obtain ⟨m, hm, hlook⟩ := fetchGo_ok devices [] hnames haddr
    refine ⟨m, hm, fun k => by rw [hlook k]; cases lastMatch devices k <;> rfl, ?_⟩
    intro d hd s hs
    rw [hlook s]
    have hsome := lastMatch_isSome_of_mem devices d s hd hs
    cases hl : lastMatch devices s with
    | some d2 => rfl
    | none =>
      rw [hl] at hsome
      cases hsome

/-- Witness for C4: a list containing one malformed name makes the whole
fetch fail with the invalid-device-name error. -/
theorem fetchHosts_all_or_nothing_witness :
    ∃ bad ∈ [Device.mk "good.tailnet.ts.net" ["100.64.0.1"], Device.mk "bad" ["100.64.0.2"]],
      okName bad = false ∧
      fetchHosts [Device.mk "good.tailnet.ts.net" ["100.64.0.1"], Device.mk "bad" ["100.64.0.2"]]
        = .err (.invalidDeviceName bad.name) :=
  (fetchHosts_all_or_nothing
      [Device.mk "good.tailnet.ts.net" ["100.64.0.1"], Device.mk "bad" ["100.64.0.2"]]
      (by decide)).1
    ⟨Device.mk "bad" ["100.64.0.2"], by decide, by decide⟩

/-- C8: duplicate short names raise no error: when an earlier device
shares the short name of a later device (and no device after the later
one does), fetchHosts succeeds and binds the short name to the first
address of the later device. -/
theorem fetchHosts_later_overwrites (pre : List Device) (d2 : Device)
    (post : List Device) (s : String)
    (hall : ∀ d ∈ pre ++ d2 :: post, okName d = true ∧ d.addresses ≠ [])
    (hdup : ∃ d1 ∈ pre, shortOf d1 = shortOf d2)
    (hs : shortOf d2 = some s)
    (hpost : ∀ d ∈ post, shortOf d ≠ some s) :
    ∃ m, fetchHosts (pre ++ d2 :: post) = .ok m ∧ getKey m s = some (firstAddr d2) := by
  obtain ⟨m, hm, hlook⟩ := fetchGo_ok (pre ++ d2 :: post) []
    (fun d hd => (hall d hd).1) (fun d hd => (hall d hd).2)
  refine ⟨m, hm, ?_⟩
  rw [hlook s, lastMatch_append_last pre d2 post s hs hpost]

/-- Witness for C8: two devices with short name "a"; the returned map
binds "a" to the second device's first address. -/
theorem fetchHosts_later_overwrites_witness :
    ∃ m, fetchHosts [Device.mk "a.one.ts.net" ["100.64.0.1"], Device.mk "a.two.ts.net" ["100.64.0.2"]]
        = .ok m ∧
      getKey m "a" = some (firstAddr (Device.mk "a.two.ts.net" ["100.64.0.2"])) :=
  fetchHosts_later_overwrites [Device.mk "a.one.ts.net" ["100.64.0.1"]]
    (Device.mk "a.two.ts.net" ["100.64.0.2"]) [] "a"
    (by decide) ⟨Device.mk "a.one.ts.net" ["100.64.0.1"], by decide, by decide⟩
    (by decide) (by decide)

theorem createTailscaleClient_noCredentials (cfg : Config)
    (h1 : cfg.apiKey = "")
    (h2 : cfg.clientID = "" ∨ cfg.clientSecret = "") :
    createTailscaleClient cfg = .error .noCredentials := by
  simp only [createTailscaleClient]
  rw [if_neg ?hpair, if_neg (by simp [h1])]
  case hpair =>
    rcases h2 with h | h
    · exact fun hc => hc.1 h
    · exact fun hc => hc.2 h

/-- C9: when, after environment fallback, no API key is configured and
the OAuth client-id/secret pair is incomplete, the run fails with the
missing-credentials error before any network or filesystem I/O (empty
effect trace, file untouched). -/
theorem mainE_missing_credentials (inp : CLIInput) (devices : List Device)
    (fs : FileState)
    (hargs : inp.args.length = 1)
    (hapi : (if inp.flagApiKey = "" then inp.envApiKey else inp.flagApiKey) = "")
    (hoauth : (if inp.flagClientID = "" then inp.envClientID else inp.flagClientID) = "" ∨
      (if inp.flagClientSecret = "" then inp.envClientSecret else inp.flagClientSecret) = "") :
    mainE inp devices fs = (.error .noCredentials, [], fs) := by
  have hp : parseFlags inp = .ok
      ⟨if inp.flagApiKey = "" then inp.envApiKey else inp.flagApiKey,
        if inp.flagClientID = "" then inp.envClientID else inp.flagClientID,
        if inp.flagClientSecret = "" then inp.envClientSecret else inp.flagClientSecret,
        inp.args.headD ""⟩ := by
    simp only [parseFlags]
    rw [if_neg (by omega)]
  have hc := createTailscaleClient_noCredentials
    ⟨if inp.flagApiKey = "" then inp.envApiKey else inp.flagApiKey,
      if inp.flagClientID = "" then inp.envClientID else inp.flagClientID,
      if inp.flagClientSecret = "" then inp.envClientSecret else inp.flagClientSecret,
      inp.args.headD ""⟩ hapi hoauth
  simp only [mainE, hp, hc]

/-- Witness for C9: with empty flags and environment and one positional
argument, the run stops with the missing-credentials error and performs
no I/O. -/
theorem mainE_missing_credentials_witness :
    mainE ⟨"", "", "", "", "", "", ["policy.hujson"]⟩ [] .absent =
      (.error .noCredentials, [], .absent) :=
  mainE_missing_credentials ⟨"", "", "", "", "", "", ["policy.hujson"]⟩ [] .absent
    rfl rfl (Or.inl rfl)

/-- C10: fetchHosts indexes Addresses[0] without a nonemptiness check: a
validly named device with an empty address list drives it out of bounds,
while under the precondition that every device has at least one address
the out-of-range outcome is unreachable. -/
theorem fetchHosts_unguarded_index :
    fetchHosts [Device.mk "host.tailnet.ts.net" []] = .outOfRange ∧
    ∀ devices, (∀ d ∈ devices, d.addresses ≠ []) →
      fetchHosts devices ≠ .outOfRange :=
  ⟨rfl, fun devices h => fetchGo_no_outOfRange devices [] h⟩

/-- Witness for C10: with a nonempty address list the fetch does not go
out of range. -/
theorem fetchHosts_unguarded_index_witness :
    fetchHosts [Device.mk "host.tailnet.ts.net" ["100.64.0.1"]] ≠ .outOfRange :=
  fetchHosts_unguarded_index.2 [Device.mk "host.tailnet.ts.net" ["100.64.0.1"]] (by decide)
